import Mathlib

/-!
Shallow embedding of the typing-game engine (src/Enemy.js, src/Game.js,
src/Queue.js appended to Game.js) together with proofs about the claims of
its specification.

Modelling conventions:
* JS numbers that only ever hold integers (delays, limits, score, streak,
  lives, queue size) are `Int`; `difficultyLevel` advances in steps of `0.5`
  and is `ℚ`; `Enemy.completed` is `ℚ`.
* JS strings are `String`; `word[i]` (a one-character string, or `undefined`
  out of range) is `jsCharAt`, with `none` standing for `undefined`/`null`.
* JS object identity (relevant because `new Set` deduplicates object elements
  by reference) is modelled by tagging each allocated `Enemy` with a numeric
  id (`EnemyRef`); fresh allocations get fresh ids.
* Thrown exceptions are modelled by returning the state reached at the point
  of the throw together with `some message`; a normal return carries `none`.
* DOM handles (nodes, divs) and interval handles are not part of the model;
  a running timer is represented by its delay field and, for the difficulty
  timer, an active flag.
-/

namespace TG

/-- JS single-character string indexing `s[i]`: a one-character string, or
`undefined` (here `none`) when out of range. -/
def jsCharAt (s : String) (i : Nat) : Option String :=
  (s.data.get? i).map Char.toString

/-- The per-word typing state machine (src/Enemy.js).  Field names follow the
source: `typed`, `word`, `completed` (a percentage), `next` (the next
character to type, `none` for JS `null`/`undefined`), `defeated`. -/
structure Enemy where
  typed : Nat
  word : String
  completed : ℚ
  next : Option String
  defeated : Bool
deriving Repr, DecidableEq

/-- The `Enemy` constructor (src/Enemy.js lines 2-8). -/
def Enemy.new (word : String) : Enemy :=
  { typed := 0
    word := word
    completed := 0
    next := jsCharAt word 0
    defeated := false }

/-- Method `Enemy.updateCompletionPercentage` (src/Enemy.js lines 14-20): increments
`typed`, recomputes `next` as `word[typed] ?? null` and `completed` as
`(typed / word.length) * 100`, and sets `defeated` when `next` is null. -/
def Enemy.updateCompletionPercentage (e : Enemy) : Enemy :=
  let typed := e.typed + 1
  let next := jsCharAt e.word typed
  let completed : ℚ := ((typed : ℚ) / (e.word.length : ℚ)) * 100
  { e with
    typed := typed
    next := next
    completed := completed
    defeated := if next = none then true else e.defeated }

/-- A sequence of `n` calls to `updateCompletionPercentage` (the spec's
`advance()`), used to state properties over call sequences. -/
def Enemy.advanceTimes (e : Enemy) : Nat → Enemy
  | 0 => e
  | n + 1 => (e.advanceTimes n).updateCompletionPercentage

/-- An `Enemy` object together with its allocation identity: JS `Set`
membership for objects is by reference, so two `new Enemy(w)` calls with the
same `w` yield distinct `Set` elements. -/
structure EnemyRef where
  id : Nat
  enemy : Enemy
deriving Repr, DecidableEq

/-- Deduplication performed by `new Set(data)` over object elements:
keeps the first occurrence of each object reference (id). -/
def jsSetDedupAux : List EnemyRef → List Nat → List EnemyRef
  | [], _ => []
  | x :: xs, seen =>
    if x.id ∈ seen then jsSetDedupAux xs seen
    else x :: jsSetDedupAux xs (x.id :: seen)

/-- The effect of `new Set(data)` as a list transformation (insertion order preserved,
duplicates by reference removed). -/
def jsSetDedup (l : List EnemyRef) : List EnemyRef :=
  jsSetDedupAux l []

/-- Deduplication by value equality, modelled from the spec: "duplicate
detection by value equality", i.e. two Enemy instances with equal fields
count as duplicates regardless of identity.  Used only to compare the spec's
description of `enqueueBatch` with the source's `new Set` semantics. -/
def dedupByValueAux : List EnemyRef → List Enemy → List EnemyRef
  | [], _ => []
  | x :: xs, seen =>
    if x.enemy ∈ seen then dedupByValueAux xs seen
    else x :: dedupByValueAux xs (x.enemy :: seen)

/-- Value-equality deduplication of a batch (spec-side definition). -/
def dedupByValue (l : List EnemyRef) : List EnemyRef :=
  dedupByValueAux l []

/-- The pending-word queue (Queue.js, appended to src/Game.js lines 641-678).
`size` is a separately maintained counter, exactly as in the source. -/
structure Queue where
  queue : List EnemyRef
  size : Int
deriving Repr, DecidableEq

/-- Method `Queue.enqueue` (Queue.js lines 657-660): `size += data.length` then
`queue.push(...new Set(data))`. -/
def Queue.enqueue (q : Queue) (data : List EnemyRef) : Queue :=
  { queue := q.queue ++ jsSetDedup data
    size := q.size + data.length }

/-- Method `Queue.dequeue` (Queue.js lines 667-670): `size -= 1` unconditionally,
then `queue.shift()` (which yields `undefined` on an empty array). -/
def Queue.dequeue (q : Queue) : Option EnemyRef × Queue :=
  (q.queue.head?, { queue := q.queue.tail, size := q.size - 1 })

/-- Method `Queue.clear` (Queue.js lines 675-677): empties storage; `size` is not
touched. -/
def Queue.clear (q : Queue) : Queue :=
  { q with queue := [] }

/-- Lookup in a JS `Map`, modelled as an insertion-ordered association list.
Registry keys are `Option String` because the key stored by `_addEnemyWord`
is `enemy.next`, which can in principle be `undefined`. -/
def jsMapGet : List (Option String × Enemy) → Option String → Option Enemy
  | [], _ => none
  | p :: rest, k => if p.1 = k then some p.2 else jsMapGet rest k

/-- Insertion into a JS `Map`: update in place when the key exists, append otherwise. -/
def jsMapSet : List (Option String × Enemy) → Option String → Enemy →
    List (Option String × Enemy)
  | [], k, v => [(k, v)]
  | p :: rest, k, v => if p.1 = k then (k, v) :: rest else p :: jsMapSet rest k v

/-- Removal from a JS `Map`: removes the entry with the given key, if present. -/
def jsMapDelete : List (Option String × Enemy) → Option String →
    List (Option String × Enemy)
  | [], _ => []
  | p :: rest, k => if p.1 = k then jsMapDelete rest k else p :: jsMapDelete rest k

/-- The game controller state (src/Game.js constructor).  DOM element fields
are dropped; interval handles are represented by their delay fields plus an
active flag for the difficulty timer; `nextId` is the allocation counter that
gives fresh `EnemyRef` identities. -/
structure Game where
  difficultyLevel : ℚ
  lives : Int
  activeEnemies : List (Option String × Enemy)
  enemyQueue : Queue
  enemySpawnDelay : Int
  loadQueueDelay : Int
  nextModifier : Option String
  score : Int
  streak : Int
  highScore : Int
  currentTarget : Option (Option String)
  queueLimit : Int
  activeEnemyLimit : Int
  missedWords : List String
  difficultyIntervalActive : Bool
  nextId : Nat
deriving Repr, DecidableEq

/-- The state after `new Game()` followed by `initGame("normal")`
(src/Game.js lines 14-204 and 211-234), before the initial queue fill. -/
def initialGame : Game :=
  { difficultyLevel := 0
    lives := 4
    activeEnemies := []
    enemyQueue := { queue := [], size := 0 }
    enemySpawnDelay := 2500
    loadQueueDelay := 10000
    nextModifier := some "interval"
    score := 0
    streak := 0
    highScore := 0
    currentTarget := none
    queueLimit := 30
    activeEnemyLimit := 10
    missedWords := []
    difficultyIntervalActive := true
    nextId := 0 }

/-- The message of the TypeError thrown when `this.currentTarget.enemy` is
read while `currentTarget` is null (src/Game.js line 263). -/
def nullTargetError : String :=
  "TypeError: cannot read enemy of null currentTarget"

/-- The message of the TypeError thrown when `_addEnemyWord` reads
`enemy.next` on the `undefined` returned by dequeuing an empty queue
(src/Game.js line 323 via line 393). -/
def undefinedEnemyError : String :=
  "TypeError: cannot read next of undefined"

/-- The message of the TypeError thrown when `_collisionHandler` reads
`enemy.detector` for a word absent from the registry (src/Game.js line 607). -/
def undefinedDetectorError : String :=
  "TypeError: cannot read detector of undefined"

/-- Method `Game._clearEnemyWord` (src/Game.js lines 294-310): awards
`score += word.length + streak`, deletes the registry entry keyed by the
word's first character, clears the target, and bumps the streak by
`Math.ceil(1 + difficultyLevel)`.  The target's enemy is recovered from the
registry: the JS object held by `currentTarget` is the registry entry at the
target's key (entries are inserted once and mutated in place). -/
def Game.clearEnemyWord (g : Game) : Game :=
  match g.currentTarget with
  | none => g
  | some k =>
    match jsMapGet g.activeEnemies k with
    | none => g
    | some enemy =>
      { g with
        score := g.score + enemy.word.length + g.streak
        activeEnemies := jsMapDelete g.activeEnemies (jsCharAt enemy.word 0)
        currentTarget := none
        streak := g.streak + Int.ceil ((1 : ℚ) + g.difficultyLevel) }

/-- JS `String.prototype.toLowerCase()` on the character list of a string
(character-wise lowercasing; ASCII suffices for the game's key events and
axis names). -/
def jsToLower (s : String) : String :=
  String.mk (s.data.map Char.toLower)

/-- JS strict equality between a string and a nullable string
(`s === t` is false when `t` is `null`/`undefined`). -/
def jsStrEqNullable (s : String) (t : Option String) : Bool :=
  match t with
  | some c => s == c
  | none => false

/-- Method `Game._handleKeyPress` (src/Game.js lines 242-266).  With a target
selected, `e.key.toLowerCase()` is compared against the target's `next`;
on a match the target advances (and is cleared once `next` is null).  With
no target, the registry is probed with the raw `e.key`; on a hit the entry
becomes the target and advances once.  On a miss, the unconditional
`this.currentTarget.enemy.getDisplayVersion()` on line 263 dereferences the
still-null `currentTarget` and throws. -/
def Game.handleKeyPress (g : Game) (key : String) : Game × Option String :=
  match g.currentTarget with
  | some k =>
    match jsMapGet g.activeEnemies k with
    | none => (g, none)
    | some enemy =>
      if jsStrEqNullable (jsToLower key) enemy.next then
        let enemy1 := enemy.updateCompletionPercentage
        let g1 := { g with activeEnemies := jsMapSet g.activeEnemies k enemy1 }
        if enemy1.next = none then (g1.clearEnemyWord, none) else (g1, none)
      else (g, none)
  | none =>
    match jsMapGet g.activeEnemies (some key) with
    | some enemy =>
      let enemy1 := enemy.updateCompletionPercentage
      ({ g with
         currentTarget := some (some key)
         activeEnemies := jsMapSet g.activeEnemies (some key) enemy1 }, none)
    | none => (g, some nullTargetError)

/-- Method `Game._addEnemyWord` (src/Game.js lines 317-346): a spawn attempt is
dropped when the registry already has an entry at `enemy.next` or is at
`activeEnemyLimit`; otherwise the enemy is registered keyed by `enemy.next`. -/
def Game.addEnemyWord (g : Game) (enemy : Enemy) : Game :=
  if (jsMapGet g.activeEnemies enemy.next).isSome then g
  else if g.activeEnemyLimit ≤ (g.activeEnemies.length : Int) then g
  else { g with activeEnemies := jsMapSet g.activeEnemies enemy.next enemy }

/-- The spawn interval callback (src/Game.js lines 392-394):
`this._addEnemyWord(this.enemyQueue.dequeue())`.  Dequeuing always
decrements `size`; on an empty queue it yields `undefined`, and
`_addEnemyWord` then throws reading `enemy.next`. -/
def Game.spawnTick (g : Game) : Game × Option String :=
  let r := g.enemyQueue.dequeue
  let g1 := { g with enemyQueue := r.2 }
  match r.1 with
  | none => (g1, some undefinedEnemyError)
  | some er => (g1.addEnemyWord er.enemy, none)

/-- The index expression of `_loadIntoQueue` (src/Game.js line 284):
`Math.floor(Math.random() * (words.length - 1))`, with the random draw
`r ∈ [0,1)` made explicit. -/
def randomIndex (r : ℚ) (len : Nat) : Int :=
  Int.floor (r * ((len : ℚ) - 1))

/-- JS array indexing `dict[i]` (`undefined` out of range or for negative
indices). -/
def jsListGet (dict : List String) (i : Int) : Option String :=
  if i < 0 then none else dict.get? i.toNat

/-- Method `Game._loadIntoQueue` (src/Game.js lines 280-288): computes
`needed = queueLimit - queue.size`, draws `needed` indices with
`randomIndex`, wraps the words in fresh `Enemy` instances and enqueues the
batch.  The random source is an explicit stream `rs` of draws in `[0,1)`.
For a nonempty dictionary every drawn index is in range, so the
out-of-range default `""` is never used. -/
def Game.loadIntoQueue (g : Game) (dict : List String) (rs : Nat → ℚ) : Game :=
  let needed : Int := g.queueLimit - g.enemyQueue.size
  let newEnemies : List EnemyRef :=
    (List.range needed.toNat).map fun i =>
      { id := g.nextId + i
        enemy := Enemy.new ((jsListGet dict (randomIndex (rs i) dict.length)).getD "") }
  { g with
    enemyQueue := g.enemyQueue.enqueue newEnemies
    nextId := g.nextId + needed.toNat }

/-- The axis-application part of `Game._increaseDifficulty`
(src/Game.js lines 361-374). -/
def Game.applyAxis (g : Game) : Game :=
  if g.nextModifier = some "interval" then
    if 500 < g.enemySpawnDelay then
      { g with
        loadQueueDelay := g.loadQueueDelay - 1000
        enemySpawnDelay := g.enemySpawnDelay - 500
        difficultyLevel := g.difficultyLevel + 1 / 2 }
    else g
  else if g.nextModifier = some "wordlimit" then
    if g.queueLimit < 60 then
      { g with
        queueLimit := g.queueLimit + 5
        activeEnemyLimit := g.activeEnemyLimit + 1
        difficultyLevel := g.difficultyLevel + 1 / 2 }
    else g
  else g

/-- The difficulty-change message built by `_updateDisplay('message', ...)`
(src/Game.js lines 505-520) for the axis that was just processed. -/
def difficultySubstitute (prev : String) : String :=
  if jsToLower prev = "interval" then "Intervals Decreased!" else "More Words Coming!"

/-- Method `Game._increaseDifficulty` (src/Game.js lines 353-380).  At level 5 the
modifier is nulled and the difficulty interval cleared.  Otherwise the
current axis is applied (its guard may make it a no-op), `_setIntervals`
restarts the timers, the modifier flips, and a difficulty message naming the
previous axis is emitted (second component; `prev` is never `none` in this
branch in reachable states, since `none` is only ever set at level 5). -/
def Game.increaseDifficulty (g : Game) : Game × Option String :=
  if g.difficultyLevel = 5 then
    ({ g with nextModifier := none, difficultyIntervalActive := false }, none)
  else
    let prev := g.nextModifier
    let g1 := g.applyAxis
    let g2 := { g1 with
                difficultyIntervalActive := true
                nextModifier :=
                  if prev = some "interval" then some "wordlimit" else some "interval" }
    (g2, prev.map fun p => "Difficulty up - " ++ difficultySubstitute p)

/-- Method `Game._resetDefaults` (src/Game.js lines 570-587).  Note that
`Queue.clear` leaves `size` untouched. -/
def Game.resetDefaults (g : Game) : Game :=
  { g with
    enemyQueue := g.enemyQueue.clear
    activeEnemies := []
    missedWords := []
    streak := 0
    queueLimit := 30
    difficultyLevel := 0
    activeEnemyLimit := 10
    loadQueueDelay := 10000
    enemySpawnDelay := 2500
    currentTarget := none
    nextModifier := some "interval" }

/-- Method `Game.endGame` (src/Game.js lines 530-564): records the high score,
stops all timers and resets the defaults. -/
def Game.endGame (g : Game) : Game :=
  Game.resetDefaults
    { g with
      highScore := max g.score g.highScore
      difficultyIntervalActive := false }

/-- Method `Game._collisionHandler` (src/Game.js lines 595-613): a word's node hit
the boundary.  Lives and streak are updated first; then the registry entry
for the word's first character is looked up, the target cleared if it is
that entry, the entry deleted; `clearInterval(enemy.detector)` throws when
the lookup yielded `undefined` (`null === undefined` is false, and
`Map.delete` of a missing key is a no-op, so only the earlier mutations
survive the throw).  Finally the word is recorded as missed and the game
ends when lives run out. -/
def Game.collisionHandler (g : Game) (word : String) : Game × Option String :=
  let g1 := { g with lives := g.lives - 1, streak := 0 }
  let k := jsCharAt word 0
  match jsMapGet g1.activeEnemies k with
  | none => ({ g1 with activeEnemies := jsMapDelete g1.activeEnemies k },
             some undefinedDetectorError)
  | some _ =>
    let g2 := if g1.currentTarget = some k then { g1 with currentTarget := none } else g1
    let g3 := { g2 with
                activeEnemies := jsMapDelete g2.activeEnemies k
                missedWords := g2.missedWords ++ [word] }
    if g3.lives ≤ 0 then (g3.endGame, none) else (g3, none)

/-- States reachable from a fresh normal-mode game by the controller's
operations: spawn ticks, keypresses, word clears, collisions, difficulty
ticks, queue refills, game over and resets. -/
inductive Reachable : Game → Prop
  | init : Reachable initialGame
  | spawn {g} : Reachable g → Reachable g.spawnTick.1
  | key {g} (k : String) : Reachable g → Reachable (g.handleKeyPress k).1
  | clear {g} : Reachable g → Reachable g.clearEnemyWord
  | collide {g} (w : String) : Reachable g → Reachable (g.collisionHandler w).1
  | tick {g} : Reachable g → Reachable g.increaseDifficulty.1
  | load {g} (dict : List String) (rs : Nat → ℚ) : Reachable g →
      Reachable (g.loadIntoQueue dict rs)
  | finish {g} : Reachable g → Reachable g.endGame
  | reset {g} : Reachable g → Reachable g.resetDefaults

/-- The difficulty timer in isolation: the state after `n` difficulty ticks
from a fresh game, no other operation interleaved. -/
def diffTicks : Nat → Game
  | 0 => initialGame
  | n + 1 => (diffTicks n).increaseDifficulty.1

/-- Characterisation of the states the difficulty scaler can produce: the
spawn delay has been stepped down `i ≤ 4` times from 2500 and the queue limit
stepped up `j ≤ 6` times from 30, with half a level per step. -/
def DiffInv (g : Game) : Prop :=
  ∃ i j : Nat, i ≤ 4 ∧ j ≤ 6 ∧
    g.enemySpawnDelay = 2500 - 500 * (i : ℤ) ∧
    g.queueLimit = 30 + 5 * (j : ℤ) ∧
    g.difficultyLevel = ((i : ℚ) + (j : ℚ)) / 2

/-- The registry invariant of the controller: lead-character keys are
pairwise distinct and the registry never outgrows `activeEnemyLimit`. -/
def RegistryInv (g : Game) : Prop :=
  (g.activeEnemies.map Prod.fst).Nodup ∧
  (g.activeEnemies.length : ℤ) ≤ g.activeEnemyLimit

/-- A batch of two distinct freshly-allocated `Enemy` instances carrying the
same word, as `_loadIntoQueue` produces when random sampling repeats a
dictionary word. -/
def twinCatBatch : List EnemyRef :=
  [{ id := 0, enemy := Enemy.new "cat" }, { id := 1, enemy := Enemy.new "cat" }]

/-- A game state whose difficulty has reached the terminal level 5. -/
def maxLevelGame : Game :=
  { initialGame with difficultyLevel := 5 }

/-- A game state on the "interval" axis whose spawn delay sits at the
500 ms floor while the level is still below 5. -/
def floorIntervalGame : Game :=
  { initialGame with enemySpawnDelay := 500, difficultyLevel := 4 }

/-- A game state with one active enemy, lead character "c", and no target. -/
def selectionGame : Game :=
  { initialGame with activeEnemies := [(some "c", Enemy.new "cat")] }

/-- A game state with one active enemy, lead character "c", currently
targeted. -/
def continuationGame : Game :=
  { initialGame with
    activeEnemies := [(some "c", Enemy.new "cat")]
    currentTarget := some (some "c") }

lemma jsCharAt_eq_none_iff (s : String) (i : Nat) :
    jsCharAt s i = none ↔ s.length ≤ i := by
  rw [jsCharAt, Option.map_eq_none']
  exact List.get?_eq_none

lemma update_typed (e : Enemy) :
    e.updateCompletionPercentage.typed = e.typed + 1 := rfl

lemma update_word (e : Enemy) :
    e.updateCompletionPercentage.word = e.word := rfl

lemma update_next (e : Enemy) :
    e.updateCompletionPercentage.next = jsCharAt e.word (e.typed + 1) := rfl

lemma update_completed (e : Enemy) :
    e.updateCompletionPercentage.completed =
      ((e.typed + 1 : Nat) : ℚ) / (e.word.length : ℚ) * 100 := rfl

lemma update_defeated (e : Enemy) :
    e.updateCompletionPercentage.defeated =
      if jsCharAt e.word (e.typed + 1) = none then true else e.defeated := rfl

/-- Running `n` protocol-conformant advances on a fresh enemy yields the
expected field values. -/
lemma advanceTimes_spec (w : String) (hw : 0 < w.length) :
    ∀ n, n ≤ w.length →
      ((Enemy.new w).advanceTimes n).typed = n ∧
      ((Enemy.new w).advanceTimes n).word = w ∧
      ((Enemy.new w).advanceTimes n).next = jsCharAt w n ∧
      ((Enemy.new w).advanceTimes n).completed = (n : ℚ) / (w.length : ℚ) * 100 ∧
      ((Enemy.new w).advanceTimes n).defeated = decide (n = w.length)
  | 0, _ => by
    refine ⟨rfl, rfl, rfl, by simp [Enemy.advanceTimes, Enemy.new], ?_⟩
    simp only [Enemy.advanceTimes, Enemy.new]
    exact (decide_eq_false (by omega)).symm
  | n + 1, hn => by
    obtain ⟨ht, hword, hnext, hc, hd⟩ := advanceTimes_spec w hw n (by omega)
    have hstep : (Enemy.new w).advanceTimes (n + 1) =
        ((Enemy.new w).advanceTimes n).updateCompletionPercentage := rfl
    rw [hstep, update_typed, update_word, update_next, update_completed,
      update_defeated, ht, hword, hd]
    refine ⟨rfl, rfl, rfl, rfl, ?_⟩
    by_cases hend : n + 1 = w.length
    · rw [if_pos (jsCharAt_eq_none_iff w (n + 1) |>.mpr (le_of_eq hend.symm))]
      exact (decide_eq_true hend).symm
    · rw [if_neg (fun hnone => hend (le_antisymm hn ((jsCharAt_eq_none_iff w (n + 1)).mp hnone)))]
      rw [decide_eq_false (by omega), decide_eq_false (by omega)]

/-- C3 counterexample: after one advance on the word "a", the `completed`
field is 100, not `typed / length(word)`, and it does not lie in [0, 1]. -/
theorem completed_ratio_cex :
    ¬ (((Enemy.new "a").advanceTimes 1).completed =
        (((Enemy.new "a").advanceTimes 1).typed : ℚ) / ("a".length : ℚ) ∧
       ((Enemy.new "a").advanceTimes 1).completed ≤ 1) := by
  have h : (Enemy.new "a").advanceTimes 1 = ⟨1, "a", 100, none, true⟩ := by
    norm_num [Enemy.advanceTimes, Enemy.updateCompletionPercentage, Enemy.new, jsCharAt]
    decide
  rw [h]
  rintro ⟨-, h2⟩
  norm_num at h2

/-- C3 (amended): under the protocol (never advancing a defeated enemy, so
at most `length w` advances on a fresh nonempty word), the `completed` field
equals `typedCount / length(word) * 100` and lies in the closed interval
[0, 100]. -/
theorem completed_percentage_in_range (w : String) (n : Nat)
    (hw : 0 < w.length) (hn : n ≤ w.length) :
    ((Enemy.new w).advanceTimes n).completed =
      (((Enemy.new w).advanceTimes n).typed : ℚ) / (w.length : ℚ) * 100 ∧
    0 ≤ ((Enemy.new w).advanceTimes n).completed ∧
    ((Enemy.new w).advanceTimes n).completed ≤ 100 := by
  obtain ⟨ht, -, -, hc, -⟩ := advanceTimes_spec w hw n hn
  rw [hc, ht]
  have hlen : (0 : ℚ) < (w.length : ℚ) := by exact_mod_cast hw
  have hnq : (n : ℚ) ≤ (w.length : ℚ) := by exact_mod_cast hn
  refine ⟨rfl, by positivity, ?_⟩
  rw [div_mul_eq_mul_div, div_le_iff₀ hlen]
  nlinarith

/-- Witness for `completed_percentage_in_range` at the word "ab" after one
advance. -/
theorem completed_percentage_in_range_witness :
    ((Enemy.new "ab").advanceTimes 1).completed =
      (((Enemy.new "ab").advanceTimes 1).typed : ℚ) / ("ab".length : ℚ) * 100 ∧
    0 ≤ ((Enemy.new "ab").advanceTimes 1).completed ∧
    ((Enemy.new "ab").advanceTimes 1).completed ≤ 100 :=
  completed_percentage_in_range "ab" 1 (by decide) (by decide)

/-- C6 counterexample: `advance()` has no defeat guard, so a second advance
on the one-letter word "a" drives `typed` to 2, past the word length, while
`defeated` is true with `typed ≠ length`. -/
theorem advance_unguarded_cex :
    ¬ (((Enemy.new "a").advanceTimes 2).typed ≤ "a".length) ∧
    ((Enemy.new "a").advanceTimes 2).defeated = true ∧
    ((Enemy.new "a").advanceTimes 2).typed ≠ "a".length := by
  refine ⟨by decide, by decide, by decide⟩

/-- C6 (amended): under the caller protocol (advance is never invoked on a
defeated enemy, so at most `length w` advances happen), `typed` never
exceeds the word length, `defeated` holds exactly when `typed` equals the
word length, and `completed` is monotonically non-decreasing along the
sequence. -/
theorem advance_protocol_invariants (w : String) (n m : Nat)
    (hw : 0 < w.length) (hmn : m ≤ n) (hn : n ≤ w.length) :
    ((Enemy.new w).advanceTimes n).typed ≤ w.length ∧
    (((Enemy.new w).advanceTimes n).defeated = true ↔
      ((Enemy.new w).advanceTimes n).typed = w.length) ∧
    ((Enemy.new w).advanceTimes m).completed ≤
      ((Enemy.new w).advanceTimes n).completed := by
  obtain ⟨htn, -, -, hcn, hdn⟩ := advanceTimes_spec w hw n hn
  obtain ⟨-, -, -, hcm, -⟩ := advanceTimes_spec w hw m (le_trans hmn hn)
  refine ⟨by omega, ?_, ?_⟩
  · rw [hdn, htn]
    simp
  · rw [hcm, hcn]
    have hlen : (0 : ℚ) < (w.length : ℚ) := by exact_mod_cast hw
    have hmq : (m : ℚ) ≤ (n : ℚ) := by exact_mod_cast hmn
    gcongr

/-- Witness for `advance_protocol_invariants` at the word "ab". -/
theorem advance_protocol_invariants_witness :
    ((Enemy.new "ab").advanceTimes 2).typed ≤ "ab".length ∧
    (((Enemy.new "ab").advanceTimes 2).defeated = true ↔
      ((Enemy.new "ab").advanceTimes 2).typed = "ab".length) ∧
    ((Enemy.new "ab").advanceTimes 1).completed ≤
      ((Enemy.new "ab").advanceTimes 2).completed :=
  advance_protocol_invariants "ab" 2 1 (by decide) (by decide) (by decide)

/-- C1: with no target selected and a key that matches no registry entry,
`_handleKeyPress` does not silently do nothing: it leaves the state
untouched but throws, because line 263 unconditionally reads
`this.currentTarget.enemy` while `currentTarget` is still null. -/
theorem keypress_unmatched_throws (g : Game) (key : String)
    (htgt : g.currentTarget = none)
    (hmiss : jsMapGet g.activeEnemies (some key) = none) :
    g.handleKeyPress key = (g, some nullTargetError) := by
  simp [Game.handleKeyPress, htgt, hmiss]

/-- Witness for `keypress_unmatched_throws`: pressing "z" over a fresh game
with an empty registry. -/
theorem keypress_unmatched_throws_witness :
    initialGame.handleKeyPress "z" = (initialGame, some nullTargetError) :=
  keypress_unmatched_throws initialGame "z" rfl rfl

/-- C2: a spawn tick on an empty queue is not a benign no-op: `dequeue`
still decrements the `size` counter, and `_addEnemyWord` throws reading
`next` of the `undefined` dequeued value.  (The registry is untouched, so
no enemy is spawned.) -/
theorem spawntick_empty_queue (g : Game) (h : g.enemyQueue.queue = []) :
    g.spawnTick =
      ({ g with enemyQueue := { queue := [], size := g.enemyQueue.size - 1 } },
       some undefinedEnemyError) := by
  simp [Game.spawnTick, Queue.dequeue, h]

/-- Witness for `spawntick_empty_queue`: the first spawn tick of a fresh
game (empty queue) drives `size` to -1 and throws. -/
theorem spawntick_empty_queue_witness :
    initialGame.spawnTick =
      ({ initialGame with
         enemyQueue := { queue := [], size := initialGame.enemyQueue.size - 1 } },
       some undefinedEnemyError) :=
  spawntick_empty_queue initialGame rfl

/-- C4 counterexample: `new Set` deduplicates by object reference, not by
value equality, so a batch of two distinct `Enemy` instances carrying the
same word is stored in full (2 elements), whereas value-equality
deduplication would keep only one. -/
theorem enqueue_keeps_value_duplicates :
    (({ queue := [], size := 0 } : Queue).enqueue twinCatBatch).queue = twinCatBatch ∧
    (dedupByValue twinCatBatch).length = 1 ∧
    (({ queue := [], size := 0 } : Queue).enqueue twinCatBatch).queue ≠
      dedupByValue twinCatBatch := by
  refine ⟨by decide, by decide, by decide⟩

lemma jsSetDedupAux_of_nodup :
    ∀ (l : List EnemyRef) (seen : List Nat),
      (l.map EnemyRef.id).Nodup → (∀ x ∈ l, x.id ∉ seen) → jsSetDedupAux l seen = l
  | [], _, _, _ => rfl
  | x :: xs, seen, hnd, hdisj => by
    rw [List.map_cons, List.nodup_cons] at hnd
    rw [jsSetDedupAux, if_neg (hdisj x (List.mem_cons_self x xs))]
    congr 1
    refine jsSetDedupAux_of_nodup xs (x.id :: seen) hnd.2 ?_
    intro y hy
    rw [List.mem_cons]
    rintro (hid | hseen)
    · exact hnd.1 (hid ▸ List.mem_map_of_mem EnemyRef.id hy)
    · exact hdisj y (List.mem_cons_of_mem x hy) hseen

/-- C4 (amended): `enqueue` increments `size` by the full batch length and
appends the batch deduplicated by object reference; for batches of freshly
allocated instances (pairwise-distinct identities, as `_loadIntoQueue`
produces) nothing is dropped — every element, including repeats of the same
word, is appended in original order. -/
theorem enqueue_size_and_append (q : Queue) (B : List EnemyRef)
    (hids : (B.map EnemyRef.id).Nodup) :
    (q.enqueue B).size = q.size + B.length ∧
    (q.enqueue B).queue = q.queue ++ B := by
  refine ⟨rfl, ?_⟩
  rw [Queue.enqueue, jsSetDedup, jsSetDedupAux_of_nodup B [] hids (by simp)]

/-- Witness for `enqueue_size_and_append` on the two-instance "cat" batch. -/
theorem enqueue_size_and_append_witness :
    (({ queue := [], size := 0 } : Queue).enqueue twinCatBatch).size =
      0 + twinCatBatch.length ∧
    (({ queue := [], size := 0 } : Queue).enqueue twinCatBatch).queue =
      [] ++ twinCatBatch :=
  enqueue_size_and_append { queue := [], size := 0 } twinCatBatch (by decide)

lemma applyAxis_level_mono (g : Game) :
    g.difficultyLevel ≤ g.applyAxis.difficultyLevel := by
  rw [Game.applyAxis]
  split_ifs <;> simp

lemma increaseDifficulty_level_mono (g : Game) :
    g.difficultyLevel ≤ g.increaseDifficulty.1.difficultyLevel := by
  rw [Game.increaseDifficulty]
  split_ifs
  · exact le_refl _
  · simpa using applyAxis_level_mono g

/-- A tick taken at the terminal level changes neither the level nor any
timer delay or capacity limit; it only nulls the modifier and stops the
difficulty interval. -/
lemma increaseDifficulty_at_max (g : Game) (h : g.difficultyLevel = 5) :
    g.increaseDifficulty.1.enemySpawnDelay = g.enemySpawnDelay ∧
    g.increaseDifficulty.1.loadQueueDelay = g.loadQueueDelay ∧
    g.increaseDifficulty.1.queueLimit = g.queueLimit ∧
    g.increaseDifficulty.1.activeEnemyLimit = g.activeEnemyLimit ∧
    g.increaseDifficulty.1.difficultyLevel = 5 ∧
    g.increaseDifficulty.1.difficultyIntervalActive = false := by
  rw [Game.increaseDifficulty, if_pos h]
  exact ⟨rfl, rfl, rfl, rfl, h, rfl⟩

lemma diffInv_initial : DiffInv initialGame := by
  refine ⟨0, 0, by omega, by omega, ?_, ?_, ?_⟩ <;> norm_num [initialGame]

lemma diffInv_applyAxis (g : Game) (h : DiffInv g) : DiffInv g.applyAxis := by
  obtain ⟨i, j, hi, hj, hd, hq, hl⟩ := h
  rw [Game.applyAxis]
  split_ifs with h1 h2 h3 h4
  · -- "interval" axis with room: one more 500 step down
    have hi4 : i ≤ 3 := by omega
    refine ⟨i + 1, j, by omega, hj, by push_cast; omega, by simpa using hq, ?_⟩
    simp only [hl]
    push_cast
    ring
  · exact ⟨i, j, hi, hj, by simpa using hd, by simpa using hq, by simpa using hl⟩
  · -- "wordlimit" axis with room: one more 5 step up
    have hj5 : j ≤ 5 := by omega
    refine ⟨i, j + 1, hi, by omega, by simpa using hd, by push_cast; omega, ?_⟩
    simp only [hl]
    push_cast
    ring
  · exact ⟨i, j, hi, hj, by simpa using hd, by simpa using hq, by simpa using hl⟩
  · exact ⟨i, j, hi, hj, by simpa using hd, by simpa using hq, by simpa using hl⟩

lemma diffInv_increaseDifficulty (g : Game) (h : DiffInv g) :
    DiffInv g.increaseDifficulty.1 := by
  rw [Game.increaseDifficulty]
  split_ifs
  · obtain ⟨i, j, hi, hj, hd, hq, hl⟩ := h
    exact ⟨i, j, hi, hj, by simpa using hd, by simpa using hq, by simpa using hl⟩
  · obtain ⟨i, j, hi, hj, hd, hq, hl⟩ := diffInv_applyAxis g h
    exact ⟨i, j, hi, hj, by simpa using hd, by simpa using hq, by simpa using hl⟩

lemma diffInv_diffTicks : ∀ n, DiffInv (diffTicks n)
  | 0 => diffInv_initial
  | n + 1 => diffInv_increaseDifficulty _ (diffInv_diffTicks n)

lemma level_le_five_of_diffInv (g : Game) (h : DiffInv g) :
    g.difficultyLevel ≤ 5 := by
  obtain ⟨i, j, hi, hj, -, -, hl⟩ := h
  rw [hl]
  have hiq : (i : ℚ) ≤ 4 := by exact_mod_cast hi
  have hjq : (j : ℚ) ≤ 6 := by exact_mod_cast hj
  linarith

/-- C5: over every sequence of difficulty ticks from the initial state
(level 0, spawn delay 2500, queue limit 30), the level never exceeds 5 and
never decreases; and any state at level 5 — in particular a tick sequence
that has reached it — is left with all timer delays and capacity limits
unchanged by every further tick, which also disables the difficulty
interval. -/
theorem difficulty_capped_monotone_stable (n : Nat) :
    (diffTicks n).difficultyLevel ≤ 5 ∧
    (diffTicks n).difficultyLevel ≤ (diffTicks (n + 1)).difficultyLevel ∧
    ∀ g : Game, g.difficultyLevel = 5 →
      g.increaseDifficulty.1.enemySpawnDelay = g.enemySpawnDelay ∧
      g.increaseDifficulty.1.loadQueueDelay = g.loadQueueDelay ∧
      g.increaseDifficulty.1.queueLimit = g.queueLimit ∧
      g.increaseDifficulty.1.activeEnemyLimit = g.activeEnemyLimit ∧
      g.increaseDifficulty.1.difficultyLevel = 5 ∧
      g.increaseDifficulty.1.difficultyIntervalActive = false :=
  ⟨level_le_five_of_diffInv _ (diffInv_diffTicks n),
   increaseDifficulty_level_mono _,
   increaseDifficulty_at_max⟩

/-- Witness for `difficulty_capped_monotone_stable` after three ticks and at
a terminal-level state. -/
theorem difficulty_capped_monotone_stable_witness :
    (diffTicks 3).difficultyLevel ≤ 5 ∧
    (diffTicks 3).difficultyLevel ≤ (diffTicks 4).difficultyLevel ∧
    (maxLevelGame.increaseDifficulty.1.enemySpawnDelay = maxLevelGame.enemySpawnDelay ∧
     maxLevelGame.increaseDifficulty.1.loadQueueDelay = maxLevelGame.loadQueueDelay ∧
     maxLevelGame.increaseDifficulty.1.queueLimit = maxLevelGame.queueLimit ∧
     maxLevelGame.increaseDifficulty.1.activeEnemyLimit = maxLevelGame.activeEnemyLimit ∧
     maxLevelGame.increaseDifficulty.1.difficultyLevel = 5 ∧
     maxLevelGame.increaseDifficulty.1.difficultyIntervalActive = false) :=
  ⟨(difficulty_capped_monotone_stable 3).1,
   (difficulty_capped_monotone_stable 3).2.1,
   (difficulty_capped_monotone_stable 3).2.2 maxLevelGame rfl⟩

/-- C9: a difficulty tick on the "interval" axis with the spawn delay at its
500 ms floor and the level below 5 changes no delay and no level, yet still
flips `nextModifier` to "wordlimit" and still emits the difficulty message
naming the interval axis. -/
theorem interval_floor_tick (g : Game)
    (hmod : g.nextModifier = some "interval")
    (hdelay : g.enemySpawnDelay = 500)
    (hlvl : g.difficultyLevel < 5) :
    g.increaseDifficulty.1.enemySpawnDelay = g.enemySpawnDelay ∧
    g.increaseDifficulty.1.loadQueueDelay = g.loadQueueDelay ∧
    g.increaseDifficulty.1.difficultyLevel = g.difficultyLevel ∧
    g.increaseDifficulty.1.nextModifier = some "wordlimit" ∧
    g.increaseDifficulty.2 = some "Difficulty up - Intervals Decreased!" := by
  have h5 : ¬ g.difficultyLevel = 5 := ne_of_lt hlvl
  have hfloor : ¬ (500 : ℤ) < g.enemySpawnDelay := by omega
  simp [Game.increaseDifficulty, Game.applyAxis, h5, hmod, hdelay, hfloor,
    difficultySubstitute]
  decide

/-- Witness for `interval_floor_tick` at a concrete floored state. -/
theorem interval_floor_tick_witness :
    floorIntervalGame.increaseDifficulty.1.enemySpawnDelay =
      floorIntervalGame.enemySpawnDelay ∧
    floorIntervalGame.increaseDifficulty.1.loadQueueDelay =
      floorIntervalGame.loadQueueDelay ∧
    floorIntervalGame.increaseDifficulty.1.difficultyLevel =
      floorIntervalGame.difficultyLevel ∧
    floorIntervalGame.increaseDifficulty.1.nextModifier = some "wordlimit" ∧
    floorIntervalGame.increaseDifficulty.2 =
      some "Difficulty up - Intervals Decreased!" :=
  interval_floor_tick floorIntervalGame rfl rfl (by decide)

/-- C8: the sampling expression of `_loadIntoQueue`,
`Math.floor(Math.random() * (words.length - 1))`, can never produce the last
dictionary index: for every draw `r ∈ [0,1)` and every dictionary of at
least two words, the index is strictly below `length - 1`, so the sampling
is not uniform over the whole dictionary. -/
theorem randomIndex_skips_last (r : ℚ) (len : Nat)
    (_h0 : 0 ≤ r) (h1 : r < 1) (hlen : 2 ≤ len) :
    randomIndex r len < (len : ℤ) - 1 := by
  rw [randomIndex, Int.floor_lt]
  push_cast
  have hpos : (0 : ℚ) < (len : ℚ) - 1 := by
    have : (2 : ℚ) ≤ (len : ℚ) := by exact_mod_cast hlen
    linarith
  nlinarith

/-- Witness for `randomIndex_skips_last`: the draw 1/2 over a 26-word
dictionary. -/
theorem randomIndex_skips_last_witness :
    randomIndex (1 / 2) 26 < (26 : ℤ) - 1 :=
  randomIndex_skips_last (1 / 2) 26 (by norm_num) (by norm_num) (by norm_num)

/-- C10: target selection and target continuation treat letter case
differently.  With no target selected, `_handleKeyPress` probes the registry
with the raw key, so a selection happens exactly when the raw key is a
stored lead character (an uppercase keystroke cannot select a
lowercase-lead word).  With a target selected, the key is lowercased before
it is compared to `next`, so continuation cannot distinguish keys with the
same lowercasing. -/
theorem keypress_case_asymmetry (g : Game) (key key' : String) :
    (g.currentTarget = none →
      ((g.handleKeyPress key).1.currentTarget).isSome =
        (jsMapGet g.activeEnemies (some key)).isSome) ∧
    (g.currentTarget.isSome = true → jsToLower key = jsToLower key' →
      g.handleKeyPress key = g.handleKeyPress key') := by
  constructor
  · intro h
    rw [Game.handleKeyPress]
    cases hm : jsMapGet g.activeEnemies (some key) <;> simp [h, hm]
  · intro hsome hlow
    obtain ⟨k, hk⟩ := Option.isSome_iff_exists.mp hsome
    simp only [Game.handleKeyPress, hk, hlow]

/-- Witness for `keypress_case_asymmetry`: over a registry holding only the
lowercase lead "c", pressing "C" with no target probes the registry with the
raw "C"; and with a target selected, "A" and "a" are handled identically. -/
theorem keypress_case_asymmetry_witness :
    ((selectionGame.handleKeyPress "C").1.currentTarget).isSome =
      (jsMapGet selectionGame.activeEnemies (some "C")).isSome ∧
    continuationGame.handleKeyPress "A" = continuationGame.handleKeyPress "a" :=
  ⟨(keypress_case_asymmetry selectionGame "C" "C").1 rfl,
   (keypress_case_asymmetry continuationGame "A" "a").2 rfl (by decide)⟩

lemma jsMapGet_eq_none_iff (m : List (Option String × Enemy)) (k : Option String) :
    jsMapGet m k = none ↔ k ∉ m.map Prod.fst := by
  induction m with
  | nil => simp [jsMapGet]
  | cons p rest ih =>
    rw [List.map_cons, jsMapGet]
    by_cases h : p.1 = k
    · simp [h]
    · rw [if_neg h, ih]
      simp only [List.mem_cons, not_or]
      constructor
      · intro hnot
        exact ⟨fun hk => h hk.symm, hnot⟩
      · intro hand
        exact hand.2

lemma keys_jsMapSet_of_none (m : List (Option String × Enemy))
    (k : Option String) (v : Enemy) (h : jsMapGet m k = none) :
    (jsMapSet m k v).map Prod.fst = m.map Prod.fst ++ [k] := by
  induction m with
  | nil => simp [jsMapSet]
  | cons p rest ih =>
    rw [jsMapGet] at h
    by_cases hp : p.1 = k
    · rw [if_pos hp] at h
      exact absurd h (by simp)
    · rw [if_neg hp] at h
      simp [jsMapSet, hp, ih h]

lemma keys_jsMapSet_of_some (m : List (Option String × Enemy))
    (k : Option String) (v e : Enemy) (h : jsMapGet m k = some e) :
    (jsMapSet m k v).map Prod.fst = m.map Prod.fst := by
  induction m with
  | nil => simp [jsMapGet] at h
  | cons p rest ih =>
    rw [jsMapGet] at h
    by_cases hp : p.1 = k
    · simp [jsMapSet, hp]
    · rw [if_neg hp] at h
      simp [jsMapSet, hp, ih h]

lemma length_jsMapSet_of_none (m : List (Option String × Enemy))
    (k : Option String) (v : Enemy) (h : jsMapGet m k = none) :
    (jsMapSet m k v).length = m.length + 1 := by
  have hk := congrArg List.length (keys_jsMapSet_of_none m k v h)
  simpa using hk

lemma length_jsMapSet_of_some (m : List (Option String × Enemy))
    (k : Option String) (v e : Enemy) (h : jsMapGet m k = some e) :
    (jsMapSet m k v).length = m.length := by
  have hk := congrArg List.length (keys_jsMapSet_of_some m k v e h)
  simpa using hk

lemma keys_jsMapDelete_sublist (m : List (Option String × Enemy))
    (k : Option String) :
    ((jsMapDelete m k).map Prod.fst).Sublist (m.map Prod.fst) := by
  induction m with
  | nil => simp [jsMapDelete]
  | cons p rest ih =>
    rw [jsMapDelete]
    by_cases hp : p.1 = k
    · rw [if_pos hp, List.map_cons]
      exact ih.trans (List.sublist_cons_self p.1 _)
    · rw [if_neg hp, List.map_cons, List.map_cons]
      exact ih.cons₂ p.1

lemma length_jsMapDelete_le (m : List (Option String × Enemy))
    (k : Option String) :
    (jsMapDelete m k).length ≤ m.length := by
  have h := (keys_jsMapDelete_sublist m k).length_le
  simpa using h

lemma registryInv_delete (g : Game) (k : Option String) (h : RegistryInv g) :
    ((jsMapDelete g.activeEnemies k).map Prod.fst).Nodup ∧
    ((jsMapDelete g.activeEnemies k).length : ℤ) ≤ g.activeEnemyLimit := by
  refine ⟨h.1.sublist (keys_jsMapDelete_sublist _ _), le_trans ?_ h.2⟩
  exact_mod_cast length_jsMapDelete_le g.activeEnemies k

lemma registryInv_resetDefaults (g : Game) : RegistryInv g.resetDefaults := by
  refine ⟨List.nodup_nil, ?_⟩
  norm_num [Game.resetDefaults]

lemma registryInv_endGame (g : Game) : RegistryInv g.endGame :=
  registryInv_resetDefaults _

lemma registryInv_addEnemyWord (g : Game) (e : Enemy) (h : RegistryInv g) :
    RegistryInv (g.addEnemyWord e) := by
  rw [Game.addEnemyWord]
  split_ifs with h1 h2
  · exact h
  · exact h
  · have hnone : jsMapGet g.activeEnemies e.next = none := by
      cases hg : jsMapGet g.activeEnemies e.next
      · rfl
      · rw [hg] at h1
        simp at h1
    refine ⟨?_, ?_⟩
    · show ((jsMapSet g.activeEnemies e.next e).map Prod.fst).Nodup
      rw [keys_jsMapSet_of_none _ _ _ hnone]
      have hk : e.next ∉ g.activeEnemies.map Prod.fst :=
        (jsMapGet_eq_none_iff _ _).mp hnone
      simp [List.nodup_append, h.1, hk]
    · show ((jsMapSet g.activeEnemies e.next e).length : ℤ) ≤ g.activeEnemyLimit
      rw [length_jsMapSet_of_none _ _ _ hnone]
      have hlt := h2
      push_cast
      omega

lemma registryInv_clearEnemyWord (g : Game) (h : RegistryInv g) :
    RegistryInv g.clearEnemyWord := by
  cases htgt : g.currentTarget with
  | none =>
    simp only [Game.clearEnemyWord, htgt]
    exact h
  | some k =>
    cases hg : jsMapGet g.activeEnemies k with
    | none =>
      simp only [Game.clearEnemyWord, htgt, hg]
      exact h
    | some e =>
      simp only [Game.clearEnemyWord, htgt, hg]
      exact registryInv_delete g _ h

lemma registryInv_handleKeyPress (g : Game) (key : String) (h : RegistryInv g) :
    RegistryInv (g.handleKeyPress key).1 := by
  cases htgt : g.currentTarget with
  | none =>
    cases hg : jsMapGet g.activeEnemies (some key) with
    | none =>
      simp only [Game.handleKeyPress, htgt, hg]
      exact h
    | some e =>
      simp only [Game.handleKeyPress, htgt, hg]
      refine ⟨?_, ?_⟩
      · show ((jsMapSet g.activeEnemies (some key) _).map Prod.fst).Nodup
        rw [keys_jsMapSet_of_some _ _ _ _ hg]
        exact h.1
      · show ((jsMapSet g.activeEnemies (some key) _).length : ℤ) ≤ g.activeEnemyLimit
        rw [length_jsMapSet_of_some _ _ _ _ hg]
        exact h.2
  | some k =>
    cases hg : jsMapGet g.activeEnemies k with
    | none =>
      simp only [Game.handleKeyPress, htgt, hg]
      exact h
    | some e =>
      simp only [Game.handleKeyPress, htgt, hg]
      split_ifs with hmatch hdone
      · refine registryInv_clearEnemyWord _ ⟨?_, ?_⟩
        · show ((jsMapSet g.activeEnemies k _).map Prod.fst).Nodup
          rw [keys_jsMapSet_of_some _ _ _ _ hg]
          exact h.1
        · show ((jsMapSet g.activeEnemies k _).length : ℤ) ≤ g.activeEnemyLimit
          rw [length_jsMapSet_of_some _ _ _ _ hg]
          exact h.2
      · refine ⟨?_, ?_⟩
        · show ((jsMapSet g.activeEnemies k _).map Prod.fst).Nodup
          rw [keys_jsMapSet_of_some _ _ _ _ hg]
          exact h.1
        · show ((jsMapSet g.activeEnemies k _).length : ℤ) ≤ g.activeEnemyLimit
          rw [length_jsMapSet_of_some _ _ _ _ hg]
          exact h.2
      · exact h

lemma registryInv_spawnTick (g : Game) (h : RegistryInv g) :
    RegistryInv g.spawnTick.1 := by
  rw [Game.spawnTick]
  cases hq : g.enemyQueue.dequeue.1 with
  | none =>
    simp only [hq]
    exact h
  | some er =>
    simp only [hq]
    exact registryInv_addEnemyWord _ _ h

lemma registryInv_applyAxis (g : Game) (h : RegistryInv g) :
    RegistryInv g.applyAxis := by
  rw [Game.applyAxis]
  split_ifs
  · exact h
  · exact h
  · refine ⟨h.1, ?_⟩
    show (g.activeEnemies.length : ℤ) ≤ g.activeEnemyLimit + 1
    have := h.2
    omega
  · exact h
  · exact h

lemma registryInv_increaseDifficulty (g : Game) (h : RegistryInv g) :
    RegistryInv g.increaseDifficulty.1 := by
  rw [Game.increaseDifficulty]
  split_ifs
  · exact h
  · exact registryInv_applyAxis g h

lemma registryInv_collisionHandler (g : Game) (w : String) (h : RegistryInv g) :
    RegistryInv (g.collisionHandler w).1 := by
  rw [Game.collisionHandler]
  cases hg : jsMapGet g.activeEnemies (jsCharAt w 0) with
  | none =>
    simp only [hg]
    exact registryInv_delete { g with lives := g.lives - 1, streak := 0 } _ h
  | some e =>
    simp only [hg]
    split_ifs
    all_goals
      first
      | exact registryInv_endGame _
      | exact registryInv_delete { g with lives := g.lives - 1, streak := 0 } _ h

/-- C7: in every state reachable by the controller's operations, the Active
Enemy Registry never holds two entries with the same lead-character key, and
its size never exceeds the current `activeEnemyLimit`. -/
theorem registry_keys_unique_and_bounded (g : Game) (h : Reachable g) :
    (g.activeEnemies.map Prod.fst).Nodup ∧
    (g.activeEnemies.length : ℤ) ≤ g.activeEnemyLimit := by
  induction h with
  | init => exact ⟨List.nodup_nil, by norm_num [initialGame]⟩
  | spawn _ ih => exact registryInv_spawnTick _ ih
  | key k _ ih => exact registryInv_handleKeyPress _ k ih
  | clear _ ih => exact registryInv_clearEnemyWord _ ih
  | collide w _ ih => exact registryInv_collisionHandler _ w ih
  | tick _ ih => exact registryInv_increaseDifficulty _ ih
  | load dict rs _ ih => exact ih
  | finish _ _ => exact registryInv_endGame _
  | reset _ _ => exact registryInv_resetDefaults _

/-- Witness for `registry_keys_unique_and_bounded` at the initial state. -/
theorem registry_keys_unique_and_bounded_witness :
    (initialGame.activeEnemies.map Prod.fst).Nodup ∧
    (initialGame.activeEnemies.length : ℤ) ≤ initialGame.activeEnemyLimit :=
  registry_keys_unique_and_bounded initialGame Reachable.init

end TG
